import Mathlib

/-!
Verification model of the log-structured key-value store in
`src/engines/kvs.rs` (crate `kvs`).  The Rust code is shallowly embedded:
pure functions become Lean functions, the mutable `KvStore` struct becomes a
state record threaded explicitly, machine integers (`u64`) become `Nat`
(no quantity in any statement below approaches `2^64`, so wrap-around never
matters), and fallible operations return a result value together with the
post state.  File contents are lists of `Char`; byte positions are tracked
with `Char.utf8Size`, matching the byte offsets the Rust code computes over
UTF-8 text.
-/

namespace Kvs

/-- Sum of the UTF-8 sizes of the characters of a list: the number of bytes
the text occupies on disk.  Models the byte counting done by the positional
reader and writer wrappers (`BufReaderWithPos` and `BufWriterWithPos`). -/
def bytelen (l : List Char) : Nat := (l.map Char.utf8Size).sum

theorem bytelen_nil : bytelen [] = 0 := rfl

theorem bytelen_cons (c : Char) (l : List Char) :
    bytelen (c :: l) = c.utf8Size + bytelen l := by
  simp [bytelen]

theorem bytelen_append (l m : List Char) :
    bytelen (l ++ m) = bytelen l + bytelen m := by
  simp [bytelen]

theorem bytelen_replicate (n : Nat) (c : Char) :
    bytelen (List.replicate n c) = n * c.utf8Size := by
  induction n with
  | zero => simp [bytelen]
  | succ k ih => simp [List.replicate_succ, bytelen_cons, ih, Nat.succ_mul]; ring

/-- Association-list lookup keyed by decidable equality.  Models
`HashMap::get` on the index and on the reader map (key order in the list is
irrelevant to every lookup-based statement). -/
def lookupA {α β : Type} [DecidableEq α] : List (α × β) → α → Option β
  | [], _ => none
  | (k, v) :: r, x => if x = k then some v else lookupA r x

/-- Association-list insert-or-replace.  Models `HashMap::insert` (the old
value, when needed, is read off with `lookupA` first, mirroring the value
`insert` returns in Rust). -/
def upsertA {α β : Type} [DecidableEq α] : List (α × β) → α → β → List (α × β)
  | [], x, y => [(x, y)]
  | (k, v) :: r, x, y => if x = k then (k, y) :: r else (k, v) :: upsertA r x y

/-- Association-list removal.  Models `HashMap::remove`. -/
def removeA {α β : Type} [DecidableEq α] : List (α × β) → α → List (α × β)
  | [], _ => []
  | (k, v) :: r, x => if x = k then r else (k, v) :: removeA r x

theorem lookupA_upsertA_self {α β : Type} [DecidableEq α]
    (l : List (α × β)) (x : α) (y : β) : lookupA (upsertA l x y) x = some y := by
  induction l with
  | nil => simp [upsertA, lookupA]
  | cons p r ih =>
      obtain ⟨k, v⟩ := p
      by_cases h : x = k <;> simp [upsertA, lookupA, h, ih]

/-! ## The record codec

The Rust type `KvLog` is a two-variant enum serialized by `serde_json` with
the default externally tagged representation, one compact JSON object per
record.  `serializeChars` reproduces `serde_json::to_string` exactly on this
type: the object text with no interior whitespace, strings escaped with
serde's escape table (quote, backslash, and the short or `\u00XX` escapes
for control characters, lowercase hex digits, everything else emitted raw).
-/

/-- Command record written to the log, from the Rust enum `KvLog`. -/
inductive KvLog : Type
  | set (key value : String)
  | remove (key : String)
deriving DecidableEq

/-- Escape of one character inside a JSON string literal, exactly as
`serde_json`'s serializer emits it. -/
def escChar (c : Char) : List Char :=
  if c = '"' then ['\\', '"']
  else if c = '\\' then ['\\', '\\']
  else if c.toNat < 32 then
    match c.toNat with
    | 8 => ['\\', 'b']
    | 9 => ['\\', 't']
    | 10 => ['\\', 'n']
    | 12 => ['\\', 'f']
    | 13 => ['\\', 'r']
    | n => ['\\', 'u', '0', '0', Nat.digitChar (n / 16), Nat.digitChar (n % 16)]
  else [c]

/-- Escape of a whole string body. -/
def escapeChars : List Char → List Char
  | [] => []
  | c :: r => escChar c ++ escapeChars r

theorem escapeChars_append (l m : List Char) :
    escapeChars (l ++ m) = escapeChars l ++ escapeChars m := by
  induction l with
  | nil => rfl
  | cons c r ih => simp [escapeChars, ih]

/-- Quoted JSON string literal for a Rust `String`. -/
def qstr (s : String) : List Char := '"' :: (escapeChars s.data ++ ['"'])

/-- Literal chunk of the serialized `Set` record up to the key string. -/
def setHead : List Char :=
  ['{', '"', 'S', 'e', 't', '"', ':', '{', '"', 'k', 'e', 'y', '"', ':']

/-- Literal chunk between the key string and the value string of `Set`. -/
def valSep : List Char := [',', '"', 'v', 'a', 'l', 'u', 'e', '"', ':']

/-- Literal chunk of the serialized `Remove` record up to the key string. -/
def remHead : List Char :=
  ['{', '"', 'R', 'e', 'm', 'o', 'v', 'e', '"', ':', '{', '"', 'k', 'e', 'y', '"', ':']

/-- Closing braces of either record. -/
def close2 : List Char := ['}', '}']

/-- Output of `KvLog::serialize`, i.e. `serde_json::to_string` on the record
(no trailing newline yet). -/
def serializeChars : KvLog → List Char
  | .set k v => setHead ++ (qstr k ++ (valSep ++ (qstr v ++ close2)))
  | .remove k => remHead ++ (qstr k ++ close2)

/-- One framed log line as `KvStore::append_log_file` writes it: the
serialized record followed by a single newline. -/
def framedLine (r : KvLog) : List Char := serializeChars r ++ ['\n']

/-- Concatenation of framed log lines: the contents of a log file produced
by a sequence of appends. -/
def framedAll : List KvLog → List Char
  | [] => []
  | r :: rs => framedLine r ++ framedAll rs

/-! ## The record decoder

Models `serde_json` parsing on the language of records the engine itself
reads and writes: the externally tagged object, surrounding whitespace
skipped, string escapes `\" \\ \/ \b \t \n \f \r \uXXXX` decoded (a lone
surrogate escape is rejected; surrogate pairs, reordered fields and unknown
fields are not modelled - no code path of this repository produces them and
no claim exercises them).  The parsers return the unconsumed rest of the
input, which is how `serde_json`'s stream deserializer exposes its byte
offset. -/

/-- JSON insignificant whitespace, as `serde_json` skips it. -/
def jsonWs (c : Char) : Bool := c = ' ' || c = '\t' || c = '\n' || c = '\r'

/-- Skip insignificant whitespace. -/
def skipWs (l : List Char) : List Char := l.dropWhile jsonWs

/-- Value of one hexadecimal digit. -/
def hexVal? (c : Char) : Option Nat :=
  if '0' ≤ c ∧ c ≤ '9' then some (c.toNat - 48)
  else if 'a' ≤ c ∧ c ≤ 'f' then some (c.toNat - 87)
  else if 'A' ≤ c ∧ c ≤ 'F' then some (c.toNat - 55)
  else none

/-- Helper prepending a decoded character to a string-body parse result. -/
def mapCons (c : Char) : Option (List Char × List Char) → Option (List Char × List Char)
  | some (s, rest) => some (c :: s, rest)
  | none => none

/-- Decode the four hex digits of a `\uXXXX` escape.  A value that is not a
Unicode scalar (a lone surrogate) is rejected. -/
def parseHex4 : List Char → Option (Char × List Char)
  | h1 :: h2 :: h3 :: h4 :: r3 =>
    match hexVal? h1, hexVal? h2, hexVal? h3, hexVal? h4 with
    | some a, some b, some c3, some d =>
      let n := ((a * 16 + b) * 16 + c3) * 16 + d
      if Nat.isValidChar n then some (Char.ofNat n, r3) else none
    | _, _, _, _ => none
  | _ => none

/-- Decode one escape sequence after the backslash, returning the decoded
character and the remaining input (always a strict suffix of the input). -/
def escDecode : List Char → Option (Char × List Char)
  | [] => none
  | e :: r2 =>
    if e = '"' then some ('"', r2)
    else if e = '\\' then some ('\\', r2)
    else if e = '/' then some ('/', r2)
    else if e = 'b' then some (Char.ofNat 8, r2)
    else if e = 't' then some (Char.ofNat 9, r2)
    else if e = 'n' then some (Char.ofNat 10, r2)
    else if e = 'f' then some (Char.ofNat 12, r2)
    else if e = 'r' then some (Char.ofNat 13, r2)
    else if e = 'u' then parseHex4 r2
    else none

/-- Decode the body of a JSON string literal after the opening quote,
returning the decoded characters and the input after the closing quote.
Structurally recursive on a fuel counter so that the definition computes in
the kernel; every step consumes at least one input character, so the fuel
`input length + 1` used by `parseStrBody` can never run out. -/
def parseStrBodyF : Nat → List Char → Option (List Char × List Char)
  | 0, _ => none
  | _ + 1, [] => none
  | f + 1, c :: rest =>
    if c = '"' then some ([], rest)
    else if c = '\\' then
      match escDecode rest with
      | some (d, r2) => mapCons d (parseStrBodyF f r2)
      | none => none
    else if c.toNat < 32 then none
    else mapCons c (parseStrBodyF f rest)

/-- Decode a JSON string body (see `parseStrBodyF`). -/
def parseStrBody (l : List Char) : Option (List Char × List Char) :=
  parseStrBodyF (l.length + 1) l

/-- Expect one specific character. -/
def pExact (c : Char) (l : List Char) : Option (List Char) :=
  match l with
  | x :: r => if x = c then some r else none
  | [] => none

/-- Parse a quoted JSON string literal. -/
def pQStr (l : List Char) : Option (List Char × List Char) := do
  let r ← pExact '"' l
  parseStrBody r

/-- Parse one `KvLog` record (one JSON object) from the head of the input;
the leading character must be the opening brace (callers skip whitespace
first, as `serde_json` does).  Models the derived `Deserialize` of `KvLog`
as applied by both `KvLog::deserialize` and the replay stream. -/
def parseKvLog (l : List Char) : Option (KvLog × List Char) := do
  let r ← pExact '{' l
  let (tag, r) ← pQStr (skipWs r)
  let r ← pExact ':' (skipWs r)
  let r ← pExact '{' (skipWs r)
  if tag = ['S', 'e', 't'] then do
    let (f1, r) ← pQStr (skipWs r)
    if f1 = ['k', 'e', 'y'] then do
      let r ← pExact ':' (skipWs r)
      let (k, r) ← pQStr (skipWs r)
      let r ← pExact ',' (skipWs r)
      let (f2, r) ← pQStr (skipWs r)
      if f2 = ['v', 'a', 'l', 'u', 'e'] then do
        let r ← pExact ':' (skipWs r)
        let (v, r) ← pQStr (skipWs r)
        let r ← pExact '}' (skipWs r)
        let r ← pExact '}' (skipWs r)
        some (KvLog.set (String.mk k) (String.mk v), r)
      else none
    else none
  else if tag = ['R', 'e', 'm', 'o', 'v', 'e'] then do
    let (f1, r) ← pQStr (skipWs r)
    if f1 = ['k', 'e', 'y'] then do
      let r ← pExact ':' (skipWs r)
      let (k, r) ← pQStr (skipWs r)
      let r ← pExact '}' (skipWs r)
      let r ← pExact '}' (skipWs r)
      some (KvLog.remove (String.mk k), r)
    else none
  else none

/-! ## The engine state and operations -/

/-- Index entry, from the Rust struct `IndexPos`: generation, byte offset of
the record's first byte, and recorded byte length. -/
structure IndexPos : Type where
  gen : Nat
  pos : Nat
  len : Nat
deriving DecidableEq

/-- Error kinds surfaced by the engine (the payloads of the Rust `KvsError`
variants carry no information any claim depends on).  `panicked` models a
Rust `unwrap`/`expect` failure, which aborts the process rather than
returning; the model folds it into the error type so that execution stays
total. -/
inductive KvsError : Type
  | ioError
  | serdeError
  | keyNotFound
  | panicked
deriving DecidableEq

/-- Result type of the engine operations, from `errors.rs`. -/
abbrev EResult (α : Type) : Type := Except KvsError α

/-- Engine state, from the Rust struct `KvStore`.  `files` is the directory
contents (generation number to file content); `readerPos` holds the tracked
read position of each registered reader (`BufReaderWithPos.pos`);
`writerPos` is the tracked position of the active writer
(`BufWriterWithPos.pos`). -/
structure KvStore : Type where
  index : List (String × IndexPos)
  readerPos : List (Nat × Nat)
  files : List (Nat × List Char)
  writerPos : Nat
  currentGen : Nat
  uncompacted : Nat
deriving DecidableEq

/-- Compaction threshold, from `COMPACTION_THRESHOLD` (1 MiB). -/
def COMPACTION_THRESHOLD : Nat := 1024 * 1024

/-- Current content of one generation's file (deleted or never-created files
read as empty; the engine never reads a generation it has not registered). -/
def fileOf (s : KvStore) (gen : Nat) : List Char := (lookupA s.files gen).getD []

/-- Model of `KvStore::append_log_file`: serialize the record, frame it with
a newline, write it through the buffered writer and flush.  The `ioOk` flag
injects the environment's I/O outcome: when `false` the write fails with an
I/O error and the state is unchanged (the Rust wrapper advances `pos` only
by bytes accepted). -/
def appendLogFile (s : KvStore) (log : KvLog) (ioOk : Bool) :
    EResult Unit × KvStore :=
  if ioOk then
    let line := framedLine log
    (Except.ok (),
      { s with
        files := upsertA s.files s.currentGen (fileOf s s.currentGen ++ line),
        writerPos := s.writerPos + bytelen line })
  else (Except.error KvsError.ioError, s)

/-- Bytes `BufRead::read_line` hands back when the reader sits at byte
offset `pos` of `content`: everything up to and including the next newline
(or up to end of file).  `dropBytes` advances over whole characters; the
engine only ever seeks to offsets lying on record boundaries, so the
mid-character case never arises in any statement below. -/
def dropBytes : Nat → List Char → List Char
  | 0, l => l
  | _ + 1, [] => []
  | n + 1, c :: r => dropBytes (n + 1 - c.utf8Size) r

/-- Take one line, keeping the terminating newline when present. -/
def takeLine : List Char → List Char
  | [] => []
  | c :: r => if c = '\n' then ['\n'] else c :: takeLine r

/-- Model of seek-then-`read_line` on a positional reader. -/
def readLineFrom (content : List Char) (pos : Nat) : List Char :=
  takeLine (dropBytes pos content)

/-- Model of `KvLog::deserialize`, i.e. `serde_json::from_str` on one log
line: leading whitespace skipped, one record parsed, and only whitespace may
remain. -/
def deserializeLine (l : List Char) : EResult KvLog :=
  match parseKvLog (skipWs l) with
  | some (r, rest) =>
      if skipWs rest = [] then Except.ok r else Except.error KvsError.serdeError
  | none => Except.error KvsError.serdeError

/-- Model of `KvStore::get` (`engines/kvs.rs` lines 51-67).  A key absent
from the index returns `none`; otherwise the indexed generation's reader is
fetched (`unwrap` - a missing reader is a panic), seeked to the entry
offset, one line is read (advancing only that reader's position), and the
decoded record determines the result: a `Set` yields its value and a
`Remove` yields `none`. -/
def KvStore.get (s : KvStore) (key : String) : EResult (Option String) × KvStore :=
  match lookupA s.index key with
  | none => (Except.ok none, s)
  | some ip =>
    match lookupA s.readerPos ip.gen with
    | none => (Except.error KvsError.panicked, s)
    | some _ =>
      let buf := readLineFrom (fileOf s ip.gen) ip.pos
      let s1 := { s with readerPos := upsertA s.readerPos ip.gen (ip.pos + bytelen buf) }
      match deserializeLine buf with
      | Except.error e => (Except.error e, s1)
      | Except.ok (KvLog.set _ v) => (Except.ok (some v), s1)
      | Except.ok (KvLog.remove _) => (Except.ok none, s1)

/-- Model of `KvStore::create_log_file`: open (creating if absent, never
truncating) the generation's log file in append mode and register a reader
for it if none is registered.  Returns the updated directory and reader map
together with the new writer's tracked position, which is `0` because the
wrapper seeks with `SeekFrom::Current(0)` and an append-mode file reports
position `0` before the first write. -/
def createLogFile (files : List (Nat × List Char)) (readers : List (Nat × Nat))
    (gen : Nat) : List (Nat × List Char) × List (Nat × Nat) × Nat :=
  (if (lookupA files gen).isSome then files else upsertA files gen [],
   if (lookupA readers gen).isSome then readers else upsertA readers gen 0,
   0)

/-- Copy loop of `KvStore::compact` (lines 210-221): for each index entry,
in iteration order, fetch the entry's reader (`expect` - missing reader is a
panic), seek to the entry offset, read one line and append it to the
compaction file.  Returns the outcome, the mutated state (reader positions
and the compaction file) and the compaction writer's position.  The index is
only read, never written. -/
def compactCopy : List IndexPos → KvStore → Nat → Nat →
    EResult Unit × KvStore × Nat
  | [], s, _, cpos => (Except.ok (), s, cpos)
  | ip :: rest, s, cGen, cpos =>
    match lookupA s.readerPos ip.gen with
    | none => (Except.error KvsError.panicked, s, cpos)
    | some _ =>
      let buf := readLineFrom (fileOf s ip.gen) ip.pos
      let s1 := { s with
        readerPos := upsertA s.readerPos ip.gen (ip.pos + bytelen buf),
        files := upsertA s.files cGen (fileOf s cGen ++ buf) }
      compactCopy rest s1 cGen (cpos + bytelen buf)

/-- Model of `KvStore::compact` (lines 200-238).  Two-generation bump: the
compaction target is `current_gen + 1`, the new active generation is
`current_gen + 2`; a fresh active writer and a compaction writer are
created, every indexed record is copied into the compaction file, then every
generation below the compaction target is dropped from the reader map and
its file deleted, and the uncompacted counter resets.  (As in the source,
no index entry is rewritten by this procedure.) -/
def KvStore.compact (s : KvStore) : EResult Unit × KvStore :=
  let cGen := s.currentGen + 1
  let s1 := { s with currentGen := s.currentGen + 2 }
  let (f1, r1, w1) := createLogFile s1.files s1.readerPos s1.currentGen
  let s2 := { s1 with files := f1, readerPos := r1, writerPos := w1 }
  let (f2, r2, cpos0) := createLogFile s2.files s2.readerPos cGen
  let s3 := { s2 with files := f2, readerPos := r2 }
  match compactCopy (s3.index.map Prod.snd) s3 cGen cpos0 with
  | (Except.error e, s4, _) => (Except.error e, s4)
  | (Except.ok _, s4, _) =>
    let doomed := (s4.readerPos.map Prod.fst).filter (fun g => g < cGen)
    let s5 := doomed.foldl
      (fun t g => { t with readerPos := removeA t.readerPos g,
                           files := removeA t.files g }) s4
    (Except.ok (), { s5 with uncompacted := 0 })

/-- Model of `KvStore::set` (lines 26-47): record the writer position,
append the framed `Set` record, compute the entry length as the writer
position delta, insert the index entry (crediting a superseded entry's
length to the uncompacted counter), and run compaction when the counter
exceeds the threshold. -/
def KvStore.set (s : KvStore) (key value : String) (ioOk : Bool) :
    EResult Unit × KvStore :=
  let oldPos := s.writerPos
  match appendLogFile s (KvLog.set key value) ioOk with
  | (Except.error e, s1) => (Except.error e, s1)
  | (Except.ok _, s1) =>
    let curPos := s1.writerPos
    let old := lookupA s1.index key
    let s2 := { s1 with
      index := upsertA s1.index key ⟨s1.currentGen, oldPos, curPos - oldPos⟩,
      uncompacted := s1.uncompacted + ((old.map IndexPos.len).getD 0) }
    if s2.uncompacted > COMPACTION_THRESHOLD then s2.compact
    else (Except.ok (), s2)

/-- Model of `KvStore::remove` (lines 70-78): a key absent from the index is
a key-not-found error; otherwise append a framed `Remove` record and drop
the index entry (no uncompacted accounting on this path). -/
def KvStore.remove (s : KvStore) (key : String) (ioOk : Bool) :
    EResult Unit × KvStore :=
  match lookupA s.index key with
  | none => (Except.error KvsError.keyNotFound, s)
  | some _ =>
    match appendLogFile s (KvLog.remove key) ioOk with
    | (Except.error e, s1) => (Except.error e, s1)
    | (Except.ok _, s1) => (Except.ok (), { s1 with index := removeA s1.index key })

/-! ## Replay and open -/

/-- One pass of `KvStore::replay_log_file`'s loop, structurally recursive on
a fuel argument that callers instantiate with more than the number of
records any input can hold (each successful parse consumes at least the
opening brace, so `content.length + 1` steps always suffice; the fuel-out
branch is unreachable and mirrors no behaviour).  `total` is the byte length
of the whole file, so `total - bytelen rest` is the stream deserializer's
`byte_offset` after an item.  A parse failure - including the end-of-file
failure on a truncated trailing record - propagates, as the `?` on the
stream item does in the source; only pure trailing whitespace ends the
stream cleanly. -/
def replayGo (gen : Nat) : Nat → Nat → Nat → List Char →
    List (String × IndexPos) → Nat → EResult (List (String × IndexPos) × Nat)
  | 0, _, _, _, _, _ => Except.error KvsError.panicked
  | f + 1, total, pos, rem, index, unc =>
    let rem1 := skipWs rem
    if rem1 = [] then Except.ok (index, unc)
    else
      match parseKvLog rem1 with
      | none => Except.error KvsError.serdeError
      | some (r, rest) =>
        let curPos := total - bytelen rest
        match r with
        | KvLog.set k _ =>
          let old := lookupA index k
          replayGo gen f total (curPos + 1) rest
            (upsertA index k ⟨gen, pos, curPos - pos⟩)
            (unc + ((old.map IndexPos.len).getD 0))
        | KvLog.remove k =>
          let old := lookupA index k
          replayGo gen f total (curPos + 1) rest
            (removeA index k)
            (unc + ((old.map IndexPos.len).getD 0) + (curPos - pos))

/-- Model of `KvStore::replay_log_file` (lines 164-198): seek to byte `0`,
then stream-deserialize records, inserting `Set` entries (offset = previous
`byte_offset + 1`, length = `byte_offset` delta) and removing on `Remove`,
accumulating superseded lengths in the returned uncompacted total. -/
def replayFile (gen : Nat) (content : List Char)
    (index : List (String × IndexPos)) : EResult (List (String × IndexPos) × Nat) :=
  replayGo gen (content.length + 1) (bytelen content) 0 content index 0

/-- One step of the replay fold in `open`: replay generation `g`'s file into
the accumulated index, register its reader (position at end of file) and add
its uncompacted contribution. -/
def openFoldStep (dir : List (Nat × List Char))
    (acc : List (String × IndexPos) × List (Nat × Nat) × Nat) (g : Nat) :
    EResult (List (String × IndexPos) × List (Nat × Nat) × Nat) :=
  let content := (lookupA dir g).getD []
  match replayFile g content acc.1 with
  | Except.error e => Except.error e
  | Except.ok (idx, u) =>
      Except.ok (idx, upsertA acc.2.1 g (bytelen content), acc.2.2 + u)

/-- Replay fold over the sorted generation list; a replay error aborts
`open`, as the `?` in the source's loop does. -/
def openFold (dir : List (Nat × List Char)) :
    List Nat → List (String × IndexPos) × List (Nat × Nat) × Nat →
    EResult (List (String × IndexPos) × List (Nat × Nat) × Nat)
  | [], acc => Except.ok acc
  | g :: gs, acc =>
    match openFoldStep dir acc g with
    | Except.error e => Except.error e
    | Except.ok acc2 => openFold dir gs acc2

/-- Model of `KvStore::open` (lines 83-115) on a directory already resolved
to generation-numbered log files: replay each generation in ascending order
into one shared index, register a reader per replayed file (its position has
reached end of file), pick `last generation + 1` (or `1`) as the active
generation and create its log file and writer. -/
def openStore (dir : List (Nat × List Char)) : EResult KvStore :=
  let gens := List.insertionSort (· ≤ ·) (dir.map Prod.fst)
  match openFold dir gens ([], [], 0) with
  | Except.error e => Except.error e
  | Except.ok folded =>
    let currentGen := gens.getLast?.getD 0 + 1
    let (files, readers, w) := createLogFile dir folded.2.1 currentGen
    Except.ok
      { index := folded.1, readerPos := readers, files := files,
        writerPos := w, currentGen := currentGen, uncompacted := folded.2.2 }

/-! ## Generation listing -/

/-- Split a file name at its last dot, returning stem and extension
candidate; `none` when the name contains no dot.  Preferring the deepest
recursive match finds the rightmost dot. -/
def afterLastDot : List Char → Option (List Char × List Char)
  | [] => none
  | c :: r =>
    match afterLastDot r with
    | some (st, ex) => some (c :: st, ex)
    | none => if c = '.' then some ([], r) else none

/-- Model of Rust `Path::extension` on a file name: the portion after the
last dot, except that a name whose only dot is its leading character has no
extension. -/
def rustExtension (name : List Char) : Option (List Char) :=
  match afterLastDot name with
  | some (st, ex) => if st = [] then none else some ex
  | none => none

/-- Strip every trailing occurrence of `.log` from a reversed name; helper
for `trimEndLog`. -/
def stripRevLog : List Char → List Char
  | 'g' :: 'o' :: 'l' :: '.' :: r => stripRevLog r
  | l => l

/-- Model of `str::trim_end_matches(".log")`: repeatedly remove the suffix
`.log`. -/
def trimEndLog (l : List Char) : List Char := (stripRevLog l.reverse).reverse

/-- Value of a nonempty all-digit string, or `none`. -/
def digitsVal? (l : List Char) : Option Nat :=
  if l = [] then none
  else if l.all Char.isDigit then
    some (l.foldl (fun a c => a * 10 + (c.toNat - 48)) 0)
  else none

/-- Model of `str::parse::<u64>()`: an optional leading plus sign, then
decimal digits, the value fitting in 64 bits. -/
def parseU64 (l : List Char) : Option Nat :=
  let body := match l with
    | '+' :: r => r
    | _ => l
  match digitsVal? body with
  | some n => if n < 2 ^ 64 then some n else none
  | none => none

/-- Model of `KvStore::get_sorted_gen_list` (lines 129-143) over the file
names present in the directory (every entry modelled here is a regular
file, matching the `is_file` filter): keep names with extension `log`,
strip all trailing `.log` occurrences, parse the remainder as `u64`,
drop failures, and sort ascending. -/
def getSortedGenList (names : List (List Char)) : List Nat :=
  List.insertionSort (· ≤ ·)
    (names.filterMap (fun n =>
      if rustExtension n = some ("log".data) then parseU64 (trimEndLog n)
      else none))

/-- Decimal file name of a generation, `<n>.log`; the shape the claim about
generation listing quantifies over. -/
def genName (n : Nat) : List Char := (Nat.repr n).data ++ ".log".data

/-! ## Codec roundtrip lemmas -/

theorem mkData (s : String) : String.mk s.data = s := rfl

@[simp] theorem mapCons_some (c : Char) (s rest : List Char) :
    mapCons c (some (s, rest)) = some (c :: s, rest) := rfl

@[simp] theorem pExact_cons_self (c : Char) (l : List Char) :
    pExact c (c :: l) = some l := by
  simp [pExact]

@[simp] theorem skipWs_lbrace (l : List Char) : skipWs ('{' :: l) = '{' :: l := rfl

@[simp] theorem skipWs_rbrace (l : List Char) : skipWs ('}' :: l) = '}' :: l := rfl

@[simp] theorem skipWs_quote (l : List Char) : skipWs ('"' :: l) = '"' :: l := rfl

@[simp] theorem skipWs_colon (l : List Char) : skipWs (':' :: l) = ':' :: l := rfl

@[simp] theorem skipWs_comma (l : List Char) : skipWs (',' :: l) = ',' :: l := rfl

/-- Fuel-generic form of the escape roundtrip: decoding inverts the
serializer's string escaping, given enough fuel. -/
theorem parseStrBodyF_escapeChars (s : List Char) :
    ∀ (f : Nat) (rest : List Char), s.length < f →
      parseStrBodyF f (escapeChars s ++ '"' :: rest) = some (s, rest) := by
  induction s with
  | nil =>
    intro f rest hf
    obtain ⟨f2, rfl⟩ : ∃ f2, f = f2 + 1 := ⟨f - 1, by omega⟩
    simp [escapeChars, parseStrBodyF]
  | cons c cs ih =>
    intro f rest hf
    obtain ⟨f2, rfl⟩ : ∃ f2, f = f2 + 1 := ⟨f - 1, by omega⟩
    have hf2 : cs.length < f2 := by
      have := hf; simp only [List.length_cons] at this; omega
    rw [escapeChars, List.append_assoc]
    by_cases h1 : c = '"'
    · subst h1
      have e1 : escChar '"' = ['\\', '"'] := rfl
      rw [e1]
      simp [parseStrBodyF, escDecode, ih f2 rest hf2]
    by_cases h2 : c = '\\'
    · subst h2
      have e1 : escChar '\\' = ['\\', '\\'] := rfl
      rw [e1]
      simp [parseStrBodyF, escDecode, ih f2 rest hf2]
    by_cases h3 : c.toNat < 32
    · have hofn := Char.ofNat_toNat c
      obtain ⟨k, hk, hkeq⟩ : ∃ k, k < 32 ∧ c.toNat = k := ⟨c.toNat, h3, rfl⟩
      rw [hkeq] at hofn
      interval_cases k <;>
        simp [escChar, h1, h2, hkeq, hofn, parseStrBodyF, escDecode, parseHex4,
          hexVal?, Nat.digitChar, Nat.isValidChar, ih f2 rest hf2] <;>
        exact hofn
    · have e1 : escChar c = [c] := by simp [escChar, h1, h2, h3]
      rw [e1]
      simp [parseStrBodyF, h1, h2, h3, ih f2 rest hf2]

theorem one_le_escChar_length (c : Char) : 1 ≤ (escChar c).length := by
  by_cases h1 : c = '"'
  · subst h1; decide
  by_cases h2 : c = '\\'
  · subst h2; decide
  by_cases h3 : c.toNat < 32
  · obtain ⟨k, hk, hkeq⟩ : ∃ k, k < 32 ∧ c.toNat = k := ⟨c.toNat, h3, rfl⟩
    interval_cases k <;> simp [escChar, h1, h2, hkeq]
  · simp [escChar, h1, h2, h3]

theorem length_le_escapeChars (s : List Char) : s.length ≤ (escapeChars s).length := by
  induction s with
  | nil => simp [escapeChars]
  | cons c cs ih =>
    have := one_le_escChar_length c
    simp only [escapeChars, List.length_append, List.length_cons]
    omega

/-- Decoding inverts the serializer's string escaping. -/
@[simp] theorem parseStrBody_escapeChars (s rest : List Char) :
    parseStrBody (escapeChars s ++ '"' :: rest) = some (s, rest) := by
  have hlen : s.length < (escapeChars s ++ '"' :: rest).length + 1 := by
    have := length_le_escapeChars s
    simp only [List.length_append, List.length_cons]
    omega
  exact parseStrBodyF_escapeChars s _ rest hlen

@[simp] theorem parseStrBody_tagSet (rest : List Char) :
    parseStrBody ('S' :: 'e' :: 't' :: '"' :: rest) = some (['S', 'e', 't'], rest) := rfl

@[simp] theorem parseStrBody_tagRemove (rest : List Char) :
    parseStrBody ('R' :: 'e' :: 'm' :: 'o' :: 'v' :: 'e' :: '"' :: rest) =
      some (['R', 'e', 'm', 'o', 'v', 'e'], rest) := rfl

@[simp] theorem parseStrBody_tagKey (rest : List Char) :
    parseStrBody ('k' :: 'e' :: 'y' :: '"' :: rest) = some (['k', 'e', 'y'], rest) := rfl

@[simp] theorem parseStrBody_tagValue (rest : List Char) :
    parseStrBody ('v' :: 'a' :: 'l' :: 'u' :: 'e' :: '"' :: rest) =
      some (['v', 'a', 'l', 'u', 'e'], rest) := rfl

/-- Decoding inverts serialization: the parser consumes exactly the record
text and returns the record, leaving the rest of the input untouched. -/
theorem parseKvLog_serialize (r : KvLog) (rest : List Char) :
    parseKvLog (serializeChars r ++ rest) = some (r, rest) := by
  cases r with
  | set k v =>
    simp [serializeChars, setHead, valSep, close2, qstr, parseKvLog, pQStr,
      Option.bind, mkData]
  | remove k =>
    simp [serializeChars, remHead, close2, qstr, parseKvLog, pQStr,
      Option.bind, mkData]

/-! ## Replay on well-formed logs -/

theorem serializeChars_head (r : KvLog) : ∃ t, serializeChars r = '{' :: t := by
  cases r <;> exact ⟨_, rfl⟩

theorem skipWs_append_ws (pre X : List Char) (h : ∀ c ∈ pre, jsonWs c = true) :
    skipWs (pre ++ X) = skipWs X := by
  induction pre with
  | nil => rfl
  | cons c cs ih =>
    have hc : jsonWs c = true := h c (by simp)
    have hcs : ∀ c ∈ cs, jsonWs c = true := fun c hm => h c (by simp [hm])
    simp [skipWs, List.dropWhile_cons, hc] at ih ⊢
    exact ih hcs

theorem skipWs_ws_eq_nil (ws : List Char) (h : ∀ c ∈ ws, jsonWs c = true) :
    skipWs ws = [] := by
  have := skipWs_append_ws ws [] h
  simpa using this

theorem bytelen_framedAll_cons (r : KvLog) (rs : List KvLog) :
    bytelen (framedAll (r :: rs)) =
      bytelen (serializeChars r) + 1 + bytelen (framedAll rs) := by
  have h1 : ('\n' : Char).utf8Size = 1 := rfl
  simp [framedAll, framedLine, bytelen_append, bytelen_cons, h1, bytelen_nil]
  omega

theorem length_le_framedAll (rs : List KvLog) : rs.length ≤ (framedAll rs).length := by
  induction rs with
  | nil => simp [framedAll]
  | cons r rs ih =>
    simp only [framedAll, framedLine, List.length_append, List.length_cons]
    omega

/-- Index and uncompacted total that replay computes on a log consisting of
exactly the given framed records, derived from the loop of
`replay_log_file`: each `Set` stores the parse-delta length and advances the
position past the framing newline, each `Remove` drops the key, superseded
entry lengths accumulate. -/
def replayPure (gen : Nat) : List KvLog → Nat → List (String × IndexPos) → Nat →
    List (String × IndexPos) × Nat
  | [], _, index, unc => (index, unc)
  | KvLog.set k v :: rs, pos, index, unc =>
    let jl := bytelen (serializeChars (KvLog.set k v))
    replayPure gen rs (pos + jl + 1) (upsertA index k ⟨gen, pos, jl⟩)
      (unc + (((lookupA index k).map IndexPos.len).getD 0))
  | KvLog.remove k :: rs, pos, index, unc =>
    let jl := bytelen (serializeChars (KvLog.remove k))
    replayPure gen rs (pos + jl + 1) (removeA index k)
      (unc + (((lookupA index k).map IndexPos.len).getD 0) + jl)

/-- Replay of a log that is a sequence of framed records followed by
whitespace, preceded by already-skipped whitespace, computes exactly the
`replayPure` fold.  `total` is the byte length of the whole file and `pos`
the byte offset the loop has reached. -/
theorem replayGo_framedAll (gen : Nat) (rs : List KvLog) :
    ∀ (f total pos unc : Nat) (pre ws : List Char) (index : List (String × IndexPos)),
      rs.length < f →
      (∀ c ∈ pre, jsonWs c = true) →
      (∀ c ∈ ws, jsonWs c = true) →
      total = pos + bytelen (framedAll rs) + bytelen ws →
      replayGo gen f total pos (pre ++ (framedAll rs ++ ws)) index unc =
        Except.ok (replayPure gen rs pos index unc) := by
  induction rs with
  | nil =>
    intro f total pos unc pre ws index hf hpre hws htot
    obtain ⟨f2, rfl⟩ : ∃ f2, f = f2 + 1 := ⟨f - 1, by omega⟩
    have hnil : skipWs (pre ++ (framedAll [] ++ ws)) = [] := by
      rw [skipWs_append_ws _ _ hpre]
      simp only [framedAll, List.nil_append]
      exact skipWs_ws_eq_nil ws hws
    simp [replayGo, hnil, replayPure]
  | cons r rs ih =>
    intro f total pos unc pre ws index hf hpre hws htot
    obtain ⟨f2, rfl⟩ : ∃ f2, f = f2 + 1 := ⟨f - 1, by omega⟩
    obtain ⟨t, ht⟩ := serializeChars_head r
    have h2 : framedAll (r :: rs) ++ ws =
        serializeChars r ++ ('\n' :: (framedAll rs ++ ws)) := by
      simp [framedAll, framedLine]
    have hskip : skipWs (pre ++ (framedAll (r :: rs) ++ ws)) =
        serializeChars r ++ ('\n' :: (framedAll rs ++ ws)) := by
      rw [skipWs_append_ws _ _ hpre, h2, ht, List.cons_append, skipWs_lbrace,
        ← List.cons_append, ← ht]
    have hne : ¬ (serializeChars r ++ ('\n' :: (framedAll rs ++ ws)) = []) := by
      rw [ht]; simp
    have hparse := parseKvLog_serialize r ('\n' :: (framedAll rs ++ ws))
    have hnl : ('\n' : Char).utf8Size = 1 := rfl
    have hblen : bytelen ('\n' :: (framedAll rs ++ ws)) =
        1 + bytelen (framedAll rs) + bytelen ws := by
      simp [bytelen_cons, bytelen_append, hnl]
      omega
    have htot2 : total =
        pos + (bytelen (serializeChars r) + 1 + bytelen (framedAll rs)) + bytelen ws := by
      rw [htot, bytelen_framedAll_cons]
    have hcur : total - bytelen ('\n' :: (framedAll rs ++ ws)) =
        pos + bytelen (serializeChars r) := by
      rw [hblen, htot2]; omega
    have hlen : rs.length < f2 := by
      have := hf; simp only [List.length_cons] at this; omega
    have hpre2 : ∀ c ∈ ['\n'], jsonWs c = true := by decide
    cases r with
    | set k v =>
      have hstep := ih f2 total
        (pos + bytelen (serializeChars (KvLog.set k v)) + 1)
        (unc + (((lookupA index k).map IndexPos.len).getD 0)) ['\n'] ws
        (upsertA index k ⟨gen, pos, bytelen (serializeChars (KvLog.set k v))⟩)
        hlen hpre2 hws
        (by rw [htot2]; omega)
      simp only [List.cons_append, List.nil_append] at hstep
      simp only [replayGo, hskip, hne, hparse, ite_false, if_neg hne, hcur,
        Nat.add_sub_cancel_left, replayPure]
      exact hstep
    | remove k =>
      have hstep := ih f2 total
        (pos + bytelen (serializeChars (KvLog.remove k)) + 1)
        (unc + (((lookupA index k).map IndexPos.len).getD 0) +
          bytelen (serializeChars (KvLog.remove k))) ['\n'] ws
        (removeA index k)
        hlen hpre2 hws
        (by rw [htot2]; omega)
      simp only [List.cons_append, List.nil_append] at hstep
      simp only [replayGo, hskip, hne, hparse, ite_false, if_neg hne, hcur,
        Nat.add_sub_cancel_left, replayPure]
      exact hstep

/-- Replay of a whole log file consisting of framed records plus trailing
whitespace succeeds and computes the `replayPure` fold. -/
theorem replayFile_framedAll (gen : Nat) (rs : List KvLog) (ws : List Char)
    (index : List (String × IndexPos)) (hws : ∀ c ∈ ws, jsonWs c = true) :
    replayFile gen (framedAll rs ++ ws) index =
      Except.ok (replayPure gen rs 0 index 0) := by
  have hf : rs.length < (framedAll rs ++ ws).length + 1 := by
    have := length_le_framedAll rs
    simp only [List.length_append]
    omega
  have := replayGo_framedAll gen rs ((framedAll rs ++ ws).length + 1)
    (bytelen (framedAll rs ++ ws)) 0 0 [] ws index hf (by simp) hws
    (by rw [bytelen_append]; omega)
  simpa [replayFile] using this

/-! ## Frame lemmas for the association lists -/

theorem lookupA_upsertA_ne {α β : Type} [DecidableEq α]
    (l : List (α × β)) (x g : α) (y : β) (h : g ≠ x) :
    lookupA (upsertA l x y) g = lookupA l g := by
  induction l with
  | nil => simp [upsertA, lookupA, h]
  | cons p r ih =>
    obtain ⟨k, v⟩ := p
    by_cases hk : x = k
    · subst hk
      simp [upsertA, lookupA, h]
    · by_cases hg : g = k <;> simp [upsertA, lookupA, hk, hg, ih]

theorem isSome_lookupA_upsertA {α β : Type} [DecidableEq α]
    (l : List (α × β)) (x g : α) (y : β) (hx : (lookupA l x).isSome) :
    (lookupA (upsertA l x y) g).isSome = (lookupA l g).isSome := by
  by_cases hg : g = x
  · subst hg
    rw [lookupA_upsertA_self]
    simp [hx]
  · rw [lookupA_upsertA_ne l x g y hg]

/-! ## Concrete states and logs used by the claim theorems -/

/-- Engine state immediately after `open` on an empty directory. -/
def emptyDirStore : KvStore :=
  { index := [], readerPos := [(1, 0)], files := [(1, [])],
    writerPos := 0, currentGen := 1, uncompacted := 0 }

/-- Log file holding one well-formed record followed by a truncated partial
record (the first four bytes of another framed record). -/
def truncatedLog : List Char :=
  framedAll [KvLog.set "a" "b"] ++ (framedLine (KvLog.set "e" "x")).take 4

/-- State whose index points at a `Remove` record: the shape the corruption
claim about `get` quantifies over. -/
def c3state : KvStore :=
  { index := [("a", ⟨1, 0, 23⟩)], readerPos := [(1, 0)],
    files := [(1, framedLine (KvLog.remove "a"))],
    writerPos := 0, currentGen := 2, uncompacted := 0 }

/-! ## Claim C9: encode and the encode-decode roundtrip -/

/-- C9.  The framed encoding of a record is its JSON serialization followed
by one newline, and for every well-formed framed record (an encoder output),
decoding and re-encoding reproduces the bytes exactly. -/
theorem encode_decode_roundtrip :
    (∀ r, framedLine r = serializeChars r ++ ['\n']) ∧
    (∀ x, (∃ r, x = framedLine r) →
      ∃ r, deserializeLine x = Except.ok r ∧ framedLine r = x) := by
  constructor
  · intro r; rfl
  · rintro x ⟨r, rfl⟩
    refine ⟨r, ?_, rfl⟩
    show deserializeLine (serializeChars r ++ ['\n']) = Except.ok r
    unfold deserializeLine
    obtain ⟨t, ht⟩ := serializeChars_head r
    rw [ht, List.cons_append, skipWs_lbrace, ← List.cons_append, ← ht,
      parseKvLog_serialize]
    rfl

/-- Witness for C9 at a concrete record. -/
theorem encode_decode_roundtrip_witness :
    ∃ r, deserializeLine (framedLine (KvLog.set "a" "b")) = Except.ok r ∧
      framedLine r = framedLine (KvLog.set "a" "b") :=
  encode_decode_roundtrip.2 (framedLine (KvLog.set "a" "b")) ⟨KvLog.set "a" "b", rfl⟩

/-! ## Claim C5: replay on trailing whitespace and truncated tails -/

/-- C5 counterexample.  A log consisting of one well-formed framed record
followed by a truncated partial record makes `open` fail: the replay loop
propagates the stream decoder's end-of-file error instead of treating the
truncated tail as end-of-stream. -/
theorem replay_truncated_tail_fails :
    truncatedLog = framedAll [KvLog.set "a" "b"] ++ (framedLine (KvLog.set "e" "x")).take 4 ∧
    replayFile 1 truncatedLog [] = Except.error KvsError.serdeError ∧
    (openStore [(1, truncatedLog)]).isOk = false := by
  refine ⟨rfl, rfl, rfl⟩

/-- C5 amended.  Replay of a log of well-formed framed records followed by
trailing whitespace only succeeds, indexing all records (the `replayPure`
fold); a truncated trailing partial record instead aborts `open` with a
decode error. -/
theorem replay_whitespace_tail_tolerated :
    (∀ (gen : Nat) (rs : List KvLog) (ws : List Char)
        (index : List (String × IndexPos)), (∀ c ∈ ws, jsonWs c = true) →
      replayFile gen (framedAll rs ++ ws) index =
        Except.ok (replayPure gen rs 0 index 0)) ∧
    replayFile 1 truncatedLog [] = Except.error KvsError.serdeError := by
  exact ⟨fun gen rs ws index hws => replayFile_framedAll gen rs ws index hws, rfl⟩

/-- Witness for C5's amended statement at a concrete log with a whitespace
tail. -/
theorem replay_whitespace_tail_tolerated_witness :
    replayFile 1 (framedAll [KvLog.set "a" "b"] ++ [' ', '\n']) [] =
      Except.ok (replayPure 1 [KvLog.set "a" "b"] 0 [] 0) :=
  replay_whitespace_tail_tolerated.1 1 [KvLog.set "a" "b"] [' ', '\n'] [] (by decide)

/-! ## Claim C4: record length bookkeeping at replay versus `set` -/

/-- C4.  Replaying the log written by `set("a","b")` stores length `31` (the
JSON document only), while the `set` path on the same record stores the
writer-position delta `32` (document plus framing newline): the two paths
disagree by exactly the newline byte, and the replayed length is not
`end_excl - start + 1`. -/
theorem replay_length_off_by_one :
    openStore [] = Except.ok emptyDirStore ∧
    (emptyDirStore.set "a" "b" true).2.index = [("a", ⟨1, 0, 32⟩)] ∧
    replayFile 1 (framedLine (KvLog.set "a" "b")) [] =
      Except.ok ([("a", ⟨1, 0, 31⟩)], 0) ∧
    bytelen (framedLine (KvLog.set "a" "b")) = 32 := by
  refine ⟨rfl, rfl, rfl, rfl⟩

/-! ## Claim C3: `get` on an indexed `Remove` record -/

/-- C3 counterexample.  In a state whose index entry for `"a"` points at a
decoded `Remove` record, `get` returns `Ok(None)` - a normal absence result,
not an error. -/
theorem get_remove_record_no_error :
    deserializeLine (readLineFrom (fileOf c3state 1) 0) =
      Except.ok (KvLog.remove "a") ∧
    (c3state.get "a").1 = Except.ok none := by
  refine ⟨rfl, rfl⟩

/-- C3 amended.  When the record decoded at the indexed position is a
`Remove`, `get` returns `Ok(None)`, treating the slot as an absent key
rather than surfacing a corruption error. -/
theorem get_remove_record_returns_none (s : KvStore) (key k2 : String)
    (ip : IndexPos) (h1 : lookupA s.index key = some ip)
    (h2 : (lookupA s.readerPos ip.gen).isSome = true)
    (h3 : deserializeLine (readLineFrom (fileOf s ip.gen) ip.pos) =
      Except.ok (KvLog.remove k2)) :
    (s.get key).1 = Except.ok none := by
  obtain ⟨rp, hrp⟩ := Option.isSome_iff_exists.mp h2
  simp [KvStore.get, h1, hrp, h3]

/-- Witness for C3's amended statement. -/
theorem get_remove_record_returns_none_witness :
    (c3state.get "a").1 = Except.ok none :=
  get_remove_record_returns_none c3state "a" "a" ⟨1, 0, 23⟩
    (by decide) (by decide) (by exact rfl)

/-! ## Claim C8: failed appends leave the index unchanged -/

/-- C8.  When the append fails (injected I/O failure), both `set` and
`remove` return an error and leave the in-memory index exactly as it was. -/
theorem failed_append_leaves_index (s : KvStore) (key value : String) :
    ((s.set key value false).1 = Except.error KvsError.ioError ∧
      (s.set key value false).2.index = s.index) ∧
    ((s.remove key false).2.index = s.index ∧
      ∃ e, (s.remove key false).1 = Except.error e) := by
  refine ⟨⟨?_, ?_⟩, ?_⟩
  · simp [KvStore.set, appendLogFile]
  · simp [KvStore.set, appendLogFile]
  · cases hl : lookupA s.index key with
    | none => exact ⟨by simp [KvStore.remove, hl], KvsError.keyNotFound,
        by simp [KvStore.remove, hl]⟩
    | some ip => exact ⟨by simp [KvStore.remove, hl, appendLogFile],
        KvsError.ioError, by simp [KvStore.remove, hl, appendLogFile]⟩

/-! ## Claim C10: the frame of `get` -/

/-- C10.  `get` leaves the index, the directory contents, the writer
position, the active generation, the uncompacted counter and the set of
registered readers unchanged; the only mutation is the tracked position of
the single reader it consults. -/
theorem get_frame (s : KvStore) (key : String) :
    (s.get key).2.index = s.index ∧
    (s.get key).2.files = s.files ∧
    (s.get key).2.writerPos = s.writerPos ∧
    (s.get key).2.currentGen = s.currentGen ∧
    (s.get key).2.uncompacted = s.uncompacted ∧
    (∀ g, (lookupA s.index key).all (fun ip => decide (g ≠ ip.gen)) →
      lookupA (s.get key).2.readerPos g = lookupA s.readerPos g) ∧
    (∀ g, (lookupA (s.get key).2.readerPos g).isSome =
      (lookupA s.readerPos g).isSome) := by
  cases h1 : lookupA s.index key with
  | none =>
    simp [KvStore.get, h1]
  | some ip =>
    cases h2 : lookupA s.readerPos ip.gen with
    | none =>
      simp [KvStore.get, h1, h2]
    | some rp =>
      have hsome : (lookupA s.readerPos ip.gen).isSome = true := by simp [h2]
      have hst : (s.get key).2 = { s with readerPos :=
          (upsertA s.readerPos ip.gen
            (ip.pos + bytelen (readLineFrom (fileOf s ip.gen) ip.pos))) } := by
        cases h3 : deserializeLine (readLineFrom (fileOf s ip.gen) ip.pos) with
        | error e => simp [KvStore.get, h1, h2, h3]
        | ok r => cases r <;> simp [KvStore.get, h1, h2, h3]
      rw [hst]
      refine ⟨rfl, rfl, rfl, rfl, rfl, ?_, ?_⟩
      · intro g hg
        simp only [Option.all_some, decide_eq_true_eq] at hg
        exact lookupA_upsertA_ne _ _ _ _ hg
      · intro g
        exact isSome_lookupA_upsertA _ _ _ _ hsome

/-- Witness for C10 at a concrete state, with the reader-frame hypothesis
discharged for an unrelated generation. -/
theorem get_frame_witness :
    (c3state.get "a").2.index = c3state.index ∧
    lookupA (c3state.get "a").2.readerPos 5 = lookupA c3state.readerPos 5 := by
  refine ⟨(get_frame c3state "a").1, ?_⟩
  exact (get_frame c3state "a").2.2.2.2.2.1 5 (by decide)

/-! ## Claim C7: generation listing -/

/-- C7 counterexample.  The file name `3.log.log` does not have the shape
`<u64>.log` (stripping one `.log` leaves `3.log`, not a decimal numeral),
yet the listing yields generation `3` for it because `trim_end_matches`
strips every trailing `.log` occurrence. -/
theorem gen_list_shape_cex :
    3 ∈ getSortedGenList [['3', '.', 'l', 'o', 'g', '.', 'l', 'o', 'g']] ∧
    genName 3 ∉ [['3', '.', 'l', 'o', 'g', '.', 'l', 'o', 'g']] := by
  refine ⟨by decide, by decide⟩

/-- C7 amended.  The listing is ascending and contains exactly (with
multiplicity) the `u64` parses of directory names that have extension `log`
after stripping every trailing `.log` occurrence - a set that includes every
`<u64>.log` name but also names such as `3.log.log` or `+3.log`. -/
theorem gen_list_characterization (names : List (List Char)) :
    List.Sorted (· ≤ ·) (getSortedGenList names) ∧
    ∀ n, n ∈ getSortedGenList names ↔
      ∃ name ∈ names, rustExtension name = some ("log".data) ∧
        parseU64 (trimEndLog name) = some n := by
  constructor
  · exact List.sorted_insertionSort _ _
  · intro n
    unfold getSortedGenList
    rw [(List.perm_insertionSort _ _).mem_iff, List.mem_filterMap]
    constructor
    · rintro ⟨name, hmem, hval⟩
      by_cases hext : rustExtension name = some ("log".data)
      · rw [if_pos hext] at hval
        exact ⟨name, hmem, hext, hval⟩
      · rw [if_neg hext] at hval
        cases hval
    · rintro ⟨name, hmem, hext, hval⟩
      exact ⟨name, hmem, by rw [if_pos hext]; exact hval⟩

/-- Witness for C7's amended statement: `7.log` is listed as generation `7`. -/
theorem gen_list_characterization_witness :
    List.Sorted (· ≤ ·) (getSortedGenList [genName 7]) ∧
    7 ∈ getSortedGenList [genName 7] := by
  refine ⟨(gen_list_characterization [genName 7]).1, ?_⟩
  exact ((gen_list_characterization [genName 7]).2 7).mpr
    ⟨genName 7, by decide, by decide, by decide⟩

/-! ## Claim C1: compaction and the index -/

/-- State holding one indexed record in generation 1, used to run compaction
directly. -/
def c1state : KvStore :=
  { index := [("a", ⟨1, 0, 31⟩)], readerPos := [(1, 0)],
    files := [(1, framedLine (KvLog.set "a" "b"))],
    writerPos := 32, currentGen := 1, uncompacted := 0 }

/-- C1.  Compaction on a state with a non-empty index succeeds but leaves
every index entry pointing at its old generation (here generation 1, not the
compaction target 2), deregisters that generation's reader and deletes its
file - so a subsequent `get` panics instead of returning the value. -/
theorem compact_leaves_index_dangling :
    (c1state.compact).1 = Except.ok () ∧
    lookupA (c1state.compact).2.index "a" = some ⟨1, 0, 31⟩ ∧
    lookupA (c1state.compact).2.readerPos 1 = none ∧
    lookupA (c1state.compact).2.files 1 = none ∧
    ((c1state.compact).2.get "a").1 = Except.error KvsError.panicked := by
  refine ⟨rfl, rfl, rfl, rfl, rfl⟩

/-! ## Claims C2 and C6: a reachable state that breaks the reader-map
invariant and `set`-then-`get`

The directory below holds one log file whose replay leaves more than the
compaction threshold of superseded bytes (a 1 MiB value overwritten by a
small one), so the very next `set` triggers compaction. -/

/-- Value of one mebibyte of `a` characters. -/
def bigVal : String := String.mk (List.replicate 1048576 'a')

/-- Directory with a single log file: a 1 MiB `Set` for key `a` superseded
by a small `Set` for the same key. -/
def cexDir : List (Nat × List Char) :=
  [(1, framedAll [KvLog.set "a" bigVal, KvLog.set "a" "b"])]

/-- Framed line appended by the `set` that triggers compaction. -/
def line3 : List Char := framedLine (KvLog.set "a" "c")

/-- Engine state produced by `open` on `cexDir`. -/
def s0val : KvStore :=
  { index := [("a", ⟨1, 1048607, 31⟩)], readerPos := [(1, 1048639), (2, 0)],
    files := [(1, framedAll [KvLog.set "a" bigVal, KvLog.set "a" "b"]), (2, [])],
    writerPos := 0, currentGen := 2, uncompacted := 1048606 }

/-- Engine state after `set("a","c")` on `s0val` (which runs compaction). -/
def sFinal : KvStore :=
  { index := [("a", ⟨2, 0, 32⟩)], readerPos := [(4, 0), (3, 0)],
    files := [(4, []), (3, line3)],
    writerPos := 0, currentGen := 4, uncompacted := 0 }

theorem bigVal_data : bigVal.data = List.replicate 1048576 'a' := rfl

theorem escChar_ascii_a : escChar 'a' = ['a'] := rfl

theorem escapeChars_replicate_a (n : Nat) :
    escapeChars (List.replicate n 'a') = List.replicate n 'a' := by
  induction n with
  | zero => rfl
  | succ k ih => simp [List.replicate_succ, escapeChars, escChar_ascii_a, ih]

theorem serialize_big_bytelen :
    bytelen (serializeChars (KvLog.set "a" bigVal)) = 1048606 := by
  have h1 : bytelen setHead = 14 := rfl
  have h2 : bytelen valSep = 9 := rfl
  have h3 : bytelen close2 = 2 := rfl
  have h4 : escapeChars ("a".data) = ['a'] := rfl
  have h5 : bytelen ['a'] = 1 := rfl
  have h6 : bytelen ['"'] = 1 := rfl
  have h7 : ('"' : Char).utf8Size = 1 := rfl
  have h8 : ('a' : Char).utf8Size = 1 := rfl
  rw [show serializeChars (KvLog.set "a" bigVal) =
    setHead ++ (qstr "a" ++ (valSep ++ (qstr bigVal ++ close2))) from rfl]
  rw [qstr, qstr, bigVal_data, escapeChars_replicate_a, h4]
  simp only [bytelen_append, bytelen_cons, bytelen_replicate, h1, h2, h3, h5,
    h6, h7, h8]

theorem except_bind_ok {α β : Type} (a : α) (f : α → EResult β) :
    (Except.ok a >>= f) = f a := rfl

theorem replayPure_two_sets (k v1 v2 : String) (J1 J2 : Nat)
    (h1 : bytelen (serializeChars (KvLog.set k v1)) = J1)
    (h2 : bytelen (serializeChars (KvLog.set k v2)) = J2) :
    replayPure 1 [KvLog.set k v1, KvLog.set k v2] 0 [] 0 =
      ([(k, ⟨1, J1 + 1, J2⟩)], J1) := by
  simp [replayPure, h1, h2, lookupA, upsertA]

theorem replayPure_cexDir :
    replayPure 1 [KvLog.set "a" bigVal, KvLog.set "a" "b"] 0 [] 0 =
      ([("a", ⟨1, 1048607, 31⟩)], 1048606) := by
  rw [replayPure_two_sets "a" bigVal "b" 1048606 31 serialize_big_bytelen rfl]

theorem content_bytelen :
    bytelen (framedAll [KvLog.set "a" bigVal, KvLog.set "a" "b"]) = 1048639 := by
  have h0 : bytelen (framedAll ([] : List KvLog)) = 0 := rfl
  have h2 : bytelen (serializeChars (KvLog.set "a" "b")) = 31 := rfl
  rw [bytelen_framedAll_cons, bytelen_framedAll_cons, serialize_big_bytelen, h2, h0]

theorem open_cexDir : openStore cexDir = Except.ok s0val := by
  have hrep : replayFile 1 (framedAll [KvLog.set "a" bigVal, KvLog.set "a" "b"]) [] =
      Except.ok ([("a", ⟨1, 1048607, 31⟩)], 1048606) := by
    have h := replayFile_framedAll 1 [KvLog.set "a" bigVal, KvLog.set "a" "b"]
      [] [] (by simp)
    rw [replayPure_cexDir] at h
    simpa using h
  have hgen : ∀ (dir : List (Nat × List Char)) (g : Nat) (content : List Char)
      (idx : List (String × IndexPos)) (u B : Nat),
      lookupA dir g = some content →
      replayFile g content [] = Except.ok (idx, u) →
      bytelen content = B →
      openFoldStep dir ([], [], 0) g = Except.ok (idx, [(g, B)], u) := by
    intro dir g content idx u B hc hr hb
    simp [openFoldStep, hc, hr, hb, upsertA]
  have hstep : openFoldStep cexDir ([], [], 0) 1 =
      Except.ok ([("a", ⟨1, 1048607, 31⟩)], [(1, 1048639)], 1048606) :=
    hgen cexDir 1 (framedAll [KvLog.set "a" bigVal, KvLog.set "a" "b"])
      [("a", ⟨1, 1048607, 31⟩)] 1048606 1048639 rfl hrep content_bytelen
  have hfold : openFold cexDir [1] ([], [], 0) =
      Except.ok ([("a", ⟨1, 1048607, 31⟩)], [(1, 1048639)], 1048606) := by
    rw [openFold, hstep]
    rfl
  have hsort : List.insertionSort (· ≤ ·) (cexDir.map Prod.fst) = [1] := rfl
  rw [openStore, hsort, hfold]
  simp [createLogFile, lookupA, upsertA, cexDir, s0val, List.getLast?]

theorem set_on_s0val : s0val.set "a" "c" true = (Except.ok (), sFinal) := rfl

/-- C2.  A reachable state (open on a directory, then one `set`) in which
the sole index entry references generation 2 while generation 2 is absent
from both the reader map and the directory: compaction deleted the file the
index still points into. -/
theorem reachable_dangling_generation :
    openStore cexDir = Except.ok s0val ∧
    s0val.set "a" "c" true = (Except.ok (), sFinal) ∧
    lookupA sFinal.index "a" = some ⟨2, 0, 32⟩ ∧
    lookupA sFinal.readerPos 2 = none ∧
    lookupA sFinal.files 2 = none :=
  ⟨open_cexDir, set_on_s0val, rfl, rfl, rfl⟩

/-- C6.  On the same reachable state, `set("a","c")` succeeds (triggering
compaction) but the get immediately afterwards panics on the missing reader
instead of returning `Some("c")`. -/
theorem set_then_get_panics_after_compaction :
    openStore cexDir = Except.ok s0val ∧
    (s0val.set "a" "c" true).1 = Except.ok () ∧
    ((s0val.set "a" "c" true).2.get "a").1 = Except.error KvsError.panicked := by
  refine ⟨open_cexDir, ?_, ?_⟩
  · rw [set_on_s0val]
  · rw [set_on_s0val]
    exact rfl

end Kvs
